import Mathlib

set_option linter.unusedVariables false

namespace LCF

/-! Shallow embedding of the log-query engine of `libcloudforensics`
(`src/libcloudforensics/providers/gcp/internal/log.py`, class
`GoogleCloudLog`) and of the CLI glue around it
(`src/tools/gcp_cli.py`, function `QueryLogs`).

The backing API helpers `common.ExecuteRequest` (the Pagination Helper) and
`common.GetProjects` (Scope Discovery) are repository code that is not under
`src/`; where their behaviour matters it is modelled from the spec and noted
in the corresponding doc comment. -/

/-- A GCP project record as read by `GoogleCloudLog.ExecuteQuery`: only the
`projectId` and `lifecycleState` fields are consulted (log.py lines 135-140). -/
structure Project where
  projectId : String
  lifecycleState : String
deriving DecidableEq

/-- The request body built for each batch in `GoogleCloudLog.ExecuteQuery`
(log.py lines 147-151): `resourceNames`, `filter`, `orderBy`. -/
structure RequestBody where
  resourceNames : List String
  filter : String
  orderBy : String
deriving DecidableEq

/-- Scope resolution of `ExecuteQuery` (log.py lines 130-142): in `search_all`
mode every discovered project whose `lifecycleState` is not exactly `"ACTIVE"`
is skipped (`continue`), the others are formatted as `projects/<projectId>`;
otherwise the list is just the single configured project id, formatted the
same way. -/
def resolveProjectIds (search_all : Bool) (project_id : String)
    (projects : List Project) : List String :=
  if search_all then
    (projects.filter (fun p => p.lifecycleState == "ACTIVE")).map
      (fun p => "projects/" ++ p.projectId)
  else
    ["projects/" ++ project_id]

/-- The count logged just before the batching loop (log.py lines 144-145):
`total_projects = len(project_ids)`. -/
def loggedScopeCount (search_all : Bool) (project_id : String)
    (projects : List Project) : Nat :=
  (resolveProjectIds search_all project_id projects).length

/-- The batching loop of `ExecuteQuery` (log.py line 146):
`for x in range(0, len(project_ids), 50)` takes the slice
`project_ids[x:x+50]` at each `x = 50 * i`; the Python slice `l[x:x+50]`
is `(l.drop x).take 50` and the loop body runs `(len + 49) / 50` times. -/
def chunks (l : List α) : List (List α) :=
  (List.range ((l.length + 49) / 50)).map (fun i => (l.drop (50 * i)).take 50)

/-- One request body per batch (log.py lines 147-151): the slice as
`resourceNames`, the caller's filter verbatim, `orderBy` fixed. -/
def requestBodies (qfilter : String) (ids : List String) : List RequestBody :=
  (chunks ids).map
    (fun c => { resourceNames := c, filter := qfilter, orderBy := "timestamp desc" })

/-- All request bodies issued by one `ExecuteQuery` call. -/
def issuedBodies (search_all : Bool) (project_id qfilter : String)
    (projects : List Project) : List RequestBody :=
  requestBodies qfilter (resolveProjectIds search_all project_id projects)

theorem chunks_length (l : List α) : (chunks l).length = (l.length + 49) / 50 := by
  simp [chunks]

theorem chunks_cons (l : List α) (h : l ≠ []) :
    chunks l = l.take 50 :: chunks (l.drop 50) := by
  have hpos : 0 < l.length := List.length_pos.mpr h
  have hn : (l.length + 49) / 50 = ((l.drop 50).length + 49) / 50 + 1 := by
    simp only [List.length_drop]
    omega
  rw [chunks, hn, List.range_succ_eq_map]
  simp only [List.map_cons, List.map_map]
  refine congrArg₂ List.cons (by simp) ?_
  rw [chunks]
  refine List.map_congr_left (fun i hi => ?_)
  simp only [Function.comp_apply, List.drop_drop]
  have : 50 * Nat.succ i = 50 + 50 * i := by omega
  rw [this]

theorem chunks_flatten (l : List α) : (chunks l).flatten = l := by
  generalize hk : l.length = k
  induction k using Nat.strong_induction_on generalizing l with
  | _ k ih =>
    by_cases h : l = []
    · subst h; simp [chunks]
    · have hpos : 0 < l.length := List.length_pos.mpr h
      have hlt : (l.drop 50).length < k := by
        rw [List.length_drop]; omega
      rw [chunks_cons l h, List.flatten_cons, ih _ hlt _ rfl, List.take_append_drop]

theorem chunks_mem {l : List α} {b : List α} (hb : b ∈ chunks l) :
    b ≠ [] ∧ b.length ≤ 50 := by
  rw [chunks] at hb
  obtain ⟨i, hi, rfl⟩ := List.mem_map.mp hb
  have hiL : i < (l.length + 49) / 50 := List.mem_range.mp hi
  have hlen : ((l.drop (50 * i)).take 50).length = min 50 (l.length - 50 * i) := by
    simp [List.length_take, List.length_drop]
  constructor
  · apply List.ne_nil_of_length_pos
    rw [hlen]; omega
  · rw [hlen]; omega

/-- C1: for every resolved scope-identifier list of length `N`, the batching
loop of `ExecuteQuery` produces exactly `ceil (N / 50) = (N + 49) / 50`
batches, each non-empty and of size at most 50, and their concatenation, in
order, is exactly the original list. -/
theorem c1_batch_partition (l : List String) :
    (chunks l).length = (l.length + 49) / 50 ∧
    (∀ b ∈ chunks l, b ≠ [] ∧ b.length ≤ 50) ∧
    (chunks l).flatten = l :=
  ⟨chunks_length l, fun _ hb => chunks_mem hb, chunks_flatten l⟩

/-- A concrete 101-element scope list: three batches of 50, 50 and 1. -/
def sampleScopes : List String := List.replicate 101 "projects/p"

/-- C1 witness: the partition facts evaluated on a concrete 101-element list. -/
theorem c1_batch_partition_witness :
    (chunks sampleScopes).length = 3 ∧
    (∀ b ∈ chunks sampleScopes, b ≠ [] ∧ b.length ≤ 50) ∧
    (chunks sampleScopes).flatten = sampleScopes :=
  ⟨by decide, (c1_batch_partition sampleScopes).2.1, (c1_batch_partition sampleScopes).2.2⟩

/-- One page of a list-entries response: the generator reads only
`response.get('entries', [])` (log.py line 158), so a page is modelled by its
optional `entries` field; every other field is irrelevant to the engine. -/
structure Page (α : Type) where
  entries : Option (List α)
deriving DecidableEq

/-- The entry list the generator extracts from a page:
`response.get('entries', [])` — an absent `entries` key yields `[]`. -/
def pageEntries (p : Page α) : List α := p.entries.getD []

/-- Observable actions of the `ExecuteQuery` generator, in execution order:
issuing the list request for one page of one batch, yielding one entry to the
consumer, or raising the backing call's error. -/
inductive Ev (α ε : Type) where
  | req (batchIdx pageIdx : Nat) (body : RequestBody)
  | yield (e : α)
  | err (e : ε)
deriving DecidableEq

/-- Modelled from the spec: `common.ExecuteRequest` (the Pagination Helper,
spec section 4.3) is not under `src/`; per the spec it returns a lazy sequence
of raw page responses, following continuation tokens until none remains, and
any page fetch may instead fail with the backing call's error.  A backing API
is therefore an oracle mapping a request body to its page sequence, where an
`Except.error` aborts the pagination at that fetch. -/
def Api (α ε : Type) : Type := RequestBody → List (Except ε (Page α))

/-- Trace of the inner pagination loop (log.py lines 154-159) for one batch:
each page fetch is a `req` event; a successful page yields its entries in
order and pagination continues; a failed fetch raises and ends the whole
generator. -/
def pagesTrace (bIdx : Nat) (body : RequestBody) :
    Nat → List (Except ε (Page α)) → List (Ev α ε)
  | _, [] => []
  | pIdx, Except.error e :: _ => [Ev.req bIdx pIdx body, Ev.err e]
  | pIdx, Except.ok p :: rest =>
      Ev.req bIdx pIdx body ::
        ((pageEntries p).map Ev.yield ++ pagesTrace bIdx body (pIdx + 1) rest)

/-- Whether a trace contains a raised error. -/
def traceErrored : List (Ev α ε) → Bool
  | [] => false
  | Ev.err _ :: _ => true
  | _ :: rest => traceErrored rest

/-- Trace of the outer batch loop (log.py lines 146-159): batches are
processed in order; an error raised inside a batch ends the generator, so no
later batch is started. -/
def batchesTrace (api : Api α ε) : Nat → List RequestBody → List (Ev α ε)
  | _, [] => []
  | bIdx, body :: rest =>
      let tr := pagesTrace bIdx body 0 (api body)
      if traceErrored tr then tr
      else tr ++ batchesTrace api (bIdx + 1) rest

/-- The full event trace of one `ExecuteQuery` call, were the consumer to
drain the generator completely. -/
def queryTrace (search_all : Bool) (project_id qfilter : String)
    (projects : List Project) (api : Api α ε) : List (Ev α ε) :=
  batchesTrace api 0 (issuedBodies search_all project_id qfilter projects)

/-- The entries a trace yields, in order. -/
def traceYields : List (Ev α ε) → List α
  | [] => []
  | Ev.yield e :: rest => e :: traceYields rest
  | Ev.req _ _ _ :: rest => traceYields rest
  | Ev.err _ :: rest => traceYields rest

/-- The first (hence only) error a trace raises, if any. -/
def traceError : List (Ev α ε) → Option ε
  | [] => none
  | Ev.err e :: _ => some e
  | Ev.yield _ :: rest => traceError rest
  | Ev.req _ _ _ :: rest => traceError rest

/-- The `(batch index, page index)` key of every request event, in order. -/
def reqKeys : List (Ev α ε) → List (Nat × Nat)
  | [] => []
  | Ev.req b p _ :: rest => (b, p) :: reqKeys rest
  | Ev.yield _ :: rest => reqKeys rest
  | Ev.err _ :: rest => reqKeys rest

/-- `GoogleCloudLog.ExecuteQuery` (log.py lines 116-159), fully consumed: the
entries the generator yields, in order, and the error that ends it, if any.
`projects` is `self.projects` after the optional `ListProjects` discovery
call (`common.GetProjects` is not under `src/`). -/
def ExecuteQuery (search_all : Bool) (project_id qfilter : String)
    (projects : List Project) (api : Api α ε) : List α × Option ε :=
  (traceYields (queryTrace search_all project_id qfilter projects api),
   traceError (queryTrace search_all project_id qfilter projects api))

/-- Lazy consumption of the generator: pulling `n` elements executes exactly
the trace prefix through the `n`-th `yield` (the generator suspends right
after each `yield`), or through the first raised error if one comes first. -/
def consumeEvents : Nat → List (Ev α ε) → List (Ev α ε)
  | 0, _ => []
  | _ + 1, [] => []
  | n + 1, Ev.yield e :: rest => Ev.yield e :: consumeEvents n rest
  | _ + 1, Ev.err e :: _ => [Ev.err e]
  | n + 1, Ev.req b p body :: rest => Ev.req b p body :: consumeEvents (n + 1) rest

theorem traceYields_append (t₁ t₂ : List (Ev α ε)) :
    traceYields (t₁ ++ t₂) = traceYields t₁ ++ traceYields t₂ := by
  induction t₁ with
  | nil => rfl
  | cons ev rest ih => cases ev <;> simp [traceYields, ih]

theorem traceYields_mapYield (es : List α) (t : List (Ev α ε)) :
    traceYields (es.map Ev.yield ++ t) = es ++ traceYields t := by
  induction es with
  | nil => rfl
  | cons e rest ih => simp [traceYields, ih]

theorem traceError_append (t₁ t₂ : List (Ev α ε)) :
    traceError (t₁ ++ t₂) =
      (traceError t₁).rec (traceError t₂) (fun e => some e) := by
  induction t₁ with
  | nil => rfl
  | cons ev rest ih => cases ev <;> simp [traceError, ih]

theorem traceError_mapYield (es : List α) (t : List (Ev α ε)) :
    traceError (es.map Ev.yield ++ t) = traceError t := by
  induction es with
  | nil => rfl
  | cons e rest ih => simp [traceError, ih]

theorem traceErrored_mapYield (es : List α) (t : List (Ev α ε)) :
    traceErrored (es.map Ev.yield ++ t) = traceErrored t := by
  induction es with
  | nil => rfl
  | cons e rest ih => simp [traceErrored, ih]

theorem reqKeys_append (t₁ t₂ : List (Ev α ε)) :
    reqKeys (t₁ ++ t₂) = reqKeys t₁ ++ reqKeys t₂ := by
  induction t₁ with
  | nil => rfl
  | cons ev rest ih => cases ev <;> simp [reqKeys, ih]

theorem reqKeys_mapYield (es : List α) (t : List (Ev α ε)) :
    reqKeys (es.map Ev.yield ++ t) = reqKeys t := by
  induction es with
  | nil => rfl
  | cons e rest ih => simp [reqKeys, ih]

theorem chunks_nil : chunks ([] : List α) = [] := by
  simp [chunks]

theorem strData (a b : String) : (a ++ b).data = a.data ++ b.data := rfl

theorem strExt {a b : String} (h : a.data = b.data) : a = b := by
  cases a
  cases b
  exact congrArg String.mk h

theorem projects_name_inj {a b : String}
    (h : "projects/" ++ a = "projects/" ++ b) : a = b := by
  have hd := congrArg String.data h
  rw [strData, strData] at hd
  exact strExt (List.append_cancel_left hd)

theorem mem_of_mem_chunks {l : List α} {b : List α} {x : α}
    (hb : b ∈ chunks l) (hx : x ∈ b) : x ∈ l := by
  have : x ∈ (chunks l).flatten := List.mem_flatten.mpr ⟨b, hb, hx⟩
  rwa [chunks_flatten] at this

theorem issued_mem_shape {sa : Bool} {pid qf : String} {projects : List Project}
    {b : RequestBody} (hb : b ∈ issuedBodies sa pid qf projects) :
    b.filter = qf ∧ b.orderBy = "timestamp desc" ∧
      b.resourceNames ∈ chunks (resolveProjectIds sa pid projects) := by
  obtain ⟨c, hc, rfl⟩ := List.mem_map.mp hb
  exact ⟨rfl, rfl, hc⟩

theorem resolve_mem_all {pid : String} {projects : List Project} {nm : String}
    (h : nm ∈ resolveProjectIds true pid projects) :
    ∃ p ∈ projects, p.lifecycleState = "ACTIVE" ∧ nm = "projects/" ++ p.projectId := by
  simp only [resolveProjectIds, if_true, List.mem_map, List.mem_filter] at h
  obtain ⟨p, ⟨hp, hact⟩, heq⟩ := h
  exact ⟨p, hp, by simpa using hact, heq.symm⟩

/-- C2: in `search_all` mode a discovered scope whose lifecycle state is not
exactly `"ACTIVE"` is silently skipped: every resource name of every issued
request comes from an `"ACTIVE"` project, the logged scope count is the
number of `"ACTIVE"` projects only, and (when no active project shares the
inactive project's id) the inactive scope's formatted name appears in no
issued request. -/
theorem c2_inactive_scopes_excluded (pid qf : String) (projects : List Project)
    (q : Project) (hq : q ∈ projects) (hstate : q.lifecycleState ≠ "ACTIVE") :
    loggedScopeCount true pid projects =
      (projects.filter (fun p => p.lifecycleState == "ACTIVE")).length ∧
    (∀ b ∈ issuedBodies true pid qf projects, ∀ nm ∈ b.resourceNames,
      ∃ p ∈ projects, p.lifecycleState = "ACTIVE" ∧ nm = "projects/" ++ p.projectId) ∧
    ((∀ p ∈ projects, p.lifecycleState = "ACTIVE" → p.projectId ≠ q.projectId) →
      ∀ b ∈ issuedBodies true pid qf projects,
        "projects/" ++ q.projectId ∉ b.resourceNames) := by
  refine ⟨by simp [loggedScopeCount, resolveProjectIds], ?_, ?_⟩
  · intro b hb nm hnm
    have hshape := issued_mem_shape hb
    exact resolve_mem_all (mem_of_mem_chunks hshape.2.2 hnm)
  · intro hdisj b hb hmem
    have hshape := issued_mem_shape hb
    obtain ⟨p, hp, hact, heq⟩ := resolve_mem_all (mem_of_mem_chunks hshape.2.2 hmem)
    exact hdisj p hp hact (projects_name_inj heq).symm

/-- C2 witness: one active and one inactive project. -/
theorem c2_inactive_scopes_excluded_witness :
    loggedScopeCount true "x" [⟨"alive", "ACTIVE"⟩, ⟨"dead", "DELETE_REQUESTED"⟩] =
      (([⟨"alive", "ACTIVE"⟩, ⟨"dead", "DELETE_REQUESTED"⟩] : List Project).filter
        (fun p => p.lifecycleState == "ACTIVE")).length ∧
    (∀ b ∈ issuedBodies true "x" "f" [⟨"alive", "ACTIVE"⟩, ⟨"dead", "DELETE_REQUESTED"⟩],
      ∀ nm ∈ b.resourceNames,
      ∃ p ∈ ([⟨"alive", "ACTIVE"⟩, ⟨"dead", "DELETE_REQUESTED"⟩] : List Project),
        p.lifecycleState = "ACTIVE" ∧ nm = "projects/" ++ p.projectId) ∧
    ((∀ p ∈ ([⟨"alive", "ACTIVE"⟩, ⟨"dead", "DELETE_REQUESTED"⟩] : List Project),
        p.lifecycleState = "ACTIVE" → p.projectId ≠ "dead") →
      ∀ b ∈ issuedBodies true "x" "f" [⟨"alive", "ACTIVE"⟩, ⟨"dead", "DELETE_REQUESTED"⟩],
        "projects/" ++ "dead" ∉ b.resourceNames) :=
  c2_inactive_scopes_excluded "x" "f"
    [⟨"alive", "ACTIVE"⟩, ⟨"dead", "DELETE_REQUESTED"⟩]
    ⟨"dead", "DELETE_REQUESTED"⟩ (by decide) (by decide)

/-- C6: every request body issued for a batch carries exactly that batch's
slice of the resolved (already `projects/<id>`-formatted) scope identifiers as
`resourceNames` (non-empty, at most 50), the caller's filter string verbatim,
and `orderBy = "timestamp desc"`. -/
theorem c6_request_body_shape (sa : Bool) (pid qf : String) (projects : List Project) :
    (issuedBodies sa pid qf projects).map RequestBody.resourceNames =
      chunks (resolveProjectIds sa pid projects) ∧
    ∀ b ∈ issuedBodies sa pid qf projects,
      b.filter = qf ∧ b.orderBy = "timestamp desc" ∧
      b.resourceNames ≠ [] ∧ b.resourceNames.length ≤ 50 ∧
      ∀ nm ∈ b.resourceNames, ∃ id, nm = "projects/" ++ id := by
  constructor
  · simp [issuedBodies, requestBodies, List.map_map, Function.comp_def]
  · intro b hb
    have hshape := issued_mem_shape hb
    have hmem := chunks_mem hshape.2.2
    refine ⟨hshape.1, hshape.2.1, hmem.1, hmem.2, ?_⟩
    intro nm hnm
    have hin : nm ∈ resolveProjectIds sa pid projects :=
      mem_of_mem_chunks hshape.2.2 hnm
    cases sa with
    | true =>
        obtain ⟨p, _, _, heq⟩ := resolve_mem_all hin
        exact ⟨p.projectId, heq⟩
    | false =>
        simp [resolveProjectIds] at hin
        exact ⟨pid, hin⟩

/-- C6 witness: 51 active projects give two batches; shape facts evaluated
through the theorem at that concrete input. -/
theorem c6_request_body_shape_witness :
    ((issuedBodies true "x" "sev" (List.replicate 51 ⟨"p", "ACTIVE"⟩)).map
        RequestBody.resourceNames =
      chunks (resolveProjectIds true "x" (List.replicate 51 ⟨"p", "ACTIVE"⟩))) ∧
    ∀ b ∈ issuedBodies true "x" "sev" (List.replicate 51 ⟨"p", "ACTIVE"⟩),
      b.filter = "sev" ∧ b.orderBy = "timestamp desc" ∧
      b.resourceNames ≠ [] ∧ b.resourceNames.length ≤ 50 ∧
      ∀ nm ∈ b.resourceNames, ∃ id, nm = "projects/" ++ id :=
  c6_request_body_shape true "x" "sev" (List.replicate 51 ⟨"p", "ACTIVE"⟩)

/-- C9: under `search_all`, when discovery yields no usable scope (the
discovered list is empty, as after a failed discovery, or contains no
`"ACTIVE"` project), `ExecuteQuery` issues no batch request and produces an
empty sequence with no error.  `common.GetProjects` itself is not under
`src/`; per the spec, a failed discovery is treated as zero discovered
scopes. -/
theorem c9_empty_discovery {α ε : Type} (pid qf : String) (projects : List Project)
    (api : Api α ε) (h : ∀ p ∈ projects, p.lifecycleState ≠ "ACTIVE") :
    issuedBodies true pid qf projects = [] ∧
    ExecuteQuery true pid qf projects api = ([], none) := by
  have hres : resolveProjectIds true pid projects = [] := by
    simp only [resolveProjectIds, if_true, List.map_eq_nil_iff,
      List.filter_eq_nil_iff]
    intro p hp
    simpa using h p hp
  have hbodies : issuedBodies true pid qf projects = [] := by
    simp [issuedBodies, requestBodies, hres, chunks_nil]
  refine ⟨hbodies, ?_⟩
  simp [ExecuteQuery, queryTrace, hbodies, batchesTrace, traceYields, traceError]

/-- C9 witness: a discovery result with one non-active project. -/
theorem c9_empty_discovery_witness :
    issuedBodies true "x" "f" [⟨"dead", "DELETE_REQUESTED"⟩] = [] ∧
    ExecuteQuery true "x" "f" [⟨"dead", "DELETE_REQUESTED"⟩]
      (fun _ => ([] : List (Except String (Page Nat)))) = ([], none) :=
  c9_empty_discovery "x" "f" [⟨"dead", "DELETE_REQUESTED"⟩]
    (fun _ => ([] : List (Except String (Page Nat)))) (by decide)

theorem traceError_append_none {t₁ t₂ : List (Ev α ε)} (h : traceError t₁ = none) :
    traceError (t₁ ++ t₂) = traceError t₂ := by
  induction t₁ with
  | nil => rfl
  | cons ev rest ih =>
      cases ev <;> simp [traceError] at h ⊢ <;> exact ih h

theorem traceErrored_append (t₁ t₂ : List (Ev α ε)) :
    traceErrored (t₁ ++ t₂) = (traceErrored t₁ || traceErrored t₂) := by
  induction t₁ with
  | nil => rfl
  | cons ev rest ih => cases ev <;> simp [traceErrored, ih]

theorem pagesTrace_ok (bIdx pIdx : Nat) (body : RequestBody) (pages : List (Page α)) :
    traceYields (pagesTrace bIdx body pIdx
        ((pages.map Except.ok) : List (Except ε (Page α)))) =
      (pages.map pageEntries).flatten ∧
    traceErrored (pagesTrace bIdx body pIdx
        ((pages.map Except.ok) : List (Except ε (Page α)))) = false ∧
    traceError (pagesTrace bIdx body pIdx
        ((pages.map Except.ok) : List (Except ε (Page α)))) = none := by
  induction pages generalizing pIdx with
  | nil => exact ⟨rfl, rfl, rfl⟩
  | cons p rest ih =>
      refine ⟨?_, ?_, ?_⟩
      · simp [pagesTrace, traceYields, traceYields_mapYield, (ih (pIdx + 1)).1]
      · simp [pagesTrace, traceErrored, traceErrored_mapYield, (ih (pIdx + 1)).2.1]
      · simp [pagesTrace, traceError, traceError_mapYield, (ih (pIdx + 1)).2.2]

theorem batchesTrace_ok (pureApi : RequestBody → List (Page α)) (bIdx : Nat)
    (bodies : List RequestBody) :
    traceYields (batchesTrace
        ((fun b => (pureApi b).map Except.ok) : Api α ε) bIdx bodies) =
      (bodies.map (fun b => ((pureApi b).map pageEntries).flatten)).flatten ∧
    traceError (batchesTrace
        ((fun b => (pureApi b).map Except.ok) : Api α ε) bIdx bodies) = none := by
  induction bodies generalizing bIdx with
  | nil => exact ⟨rfl, rfl⟩
  | cons b rest ih =>
      have hp := pagesTrace_ok (ε := ε) bIdx 0 b (pureApi b)
      constructor
      · simp [batchesTrace, hp.2.1, traceYields_append, hp.1, (ih (bIdx + 1)).1]
      · simp [batchesTrace, hp.2.1, traceError_append_none hp.2.2, (ih (bIdx + 1)).2]

/-- C5: when every page fetch succeeds, the output of `ExecuteQuery` is
exactly the concatenation, in batch-submission order then page order, of
each page's `entries` array (within-page order preserved), no error is
raised, and a page with no `entries` key contributes the empty list
(`response.get('entries', [])`, log.py line 158). -/
theorem c5_page_concatenation {α ε : Type} (sa : Bool) (pid qf : String)
    (projects : List Project) (pureApi : RequestBody → List (Page α)) :
    ExecuteQuery sa pid qf projects
        ((fun b => (pureApi b).map Except.ok) : Api α ε) =
      (((issuedBodies sa pid qf projects).map
          (fun b => ((pureApi b).map pageEntries).flatten)).flatten, none) ∧
    pageEntries (⟨none⟩ : Page α) = [] := by
  have hb := batchesTrace_ok (ε := ε) pureApi 0 (issuedBodies sa pid qf projects)
  exact ⟨by simp [ExecuteQuery, queryTrace, hb.1, hb.2], rfl⟩

/-- Strict ordering on `(batch index, page index)` request keys. -/
def ltKey (a b : Nat × Nat) : Prop :=
  a.1 < b.1 ∨ (a.1 = b.1 ∧ a.2 < b.2)

theorem reqKeys_pagesTrace_bounds {bIdx : Nat} {body : RequestBody}
    {pages : List (Except ε (Page α))} {pIdx : Nat} {k : Nat × Nat}
    (hk : k ∈ reqKeys (pagesTrace bIdx body pIdx pages)) :
    k.1 = bIdx ∧ pIdx ≤ k.2 := by
  induction pages generalizing pIdx with
  | nil => simp [pagesTrace, reqKeys] at hk
  | cons pg rest ih =>
      cases pg with
      | error e =>
          simp [pagesTrace, reqKeys] at hk
          simp [hk]
      | ok p =>
          rw [pagesTrace, reqKeys, reqKeys_mapYield] at hk
          rcases List.mem_cons.mp hk with h | h
          · simp [h]
          · have := ih h
            omega

theorem reqKeys_pagesTrace_pairwise (bIdx pIdx : Nat) (body : RequestBody)
    (pages : List (Except ε (Page α))) :
    List.Pairwise ltKey (reqKeys (pagesTrace bIdx body pIdx pages)) := by
  induction pages generalizing pIdx with
  | nil => simp [pagesTrace, reqKeys]
  | cons pg rest ih =>
      cases pg with
      | error e => simp [pagesTrace, reqKeys]
      | ok p =>
          rw [pagesTrace, reqKeys, reqKeys_mapYield]
          refine List.Pairwise.cons (fun k hk => ?_) (ih (pIdx + 1))
          have := reqKeys_pagesTrace_bounds hk
          right
          omega

theorem reqKeys_batchesTrace_lb {api : Api α ε} {bIdx : Nat}
    {bodies : List RequestBody} {k : Nat × Nat}
    (hk : k ∈ reqKeys (batchesTrace api bIdx bodies)) : bIdx ≤ k.1 := by
  induction bodies generalizing bIdx with
  | nil => simp [batchesTrace, reqKeys] at hk
  | cons b rest ih =>
      rw [batchesTrace] at hk
      by_cases he : traceErrored (pagesTrace bIdx b 0 (api b))
      · rw [if_pos he] at hk
        exact (reqKeys_pagesTrace_bounds hk).1.ge
      · rw [if_neg he, reqKeys_append] at hk
        rcases List.mem_append.mp hk with h | h
        · exact (reqKeys_pagesTrace_bounds h).1.ge
        · have := ih h
          omega

theorem reqKeys_batchesTrace_pairwise (api : Api α ε) (bIdx : Nat)
    (bodies : List RequestBody) :
    List.Pairwise ltKey (reqKeys (batchesTrace api bIdx bodies)) := by
  induction bodies generalizing bIdx with
  | nil => simp [batchesTrace, reqKeys]
  | cons b rest ih =>
      rw [batchesTrace]
      by_cases he : traceErrored (pagesTrace bIdx b 0 (api b))
      · rw [if_pos he]
        exact reqKeys_pagesTrace_pairwise bIdx 0 b (api b)
      · rw [if_neg he, reqKeys_append]
        rw [List.pairwise_append]
        refine ⟨reqKeys_pagesTrace_pairwise bIdx 0 b (api b), ih (bIdx + 1), ?_⟩
        intro x hx y hy
        have hxb := (reqKeys_pagesTrace_bounds hx).1
        have hyb := reqKeys_batchesTrace_lb hy
        left
        omega

/-- 51 active projects: the smallest scope set that needs two batches. -/
def c4Projects : List Project := List.replicate 51 ⟨"p", "ACTIVE"⟩

/-- A backing API for the C4 scenario: the 50-scope batch has two pages (3
then 2 entries) and the 1-scope batch fails. -/
def c4Api : Api Nat String := fun body =>
  if body.resourceNames.length == 50 then
    [Except.ok ⟨some [1, 2, 3]⟩, Except.ok ⟨some [4, 5]⟩]
  else
    [Except.error "boom"]

/-- C4: `ExecuteQuery` performs no internal retry — in every trace each
`(batch, page)` request key occurs at most once and in strictly increasing
order — and in the concrete two-page-then-failure scenario the consumer
observes exactly the five entries, in page order, before the error of the
second batch is raised; the failing batch's request is issued exactly once. -/
theorem c4_no_retry_error_propagation :
    (∀ {α ε : Type} (sa : Bool) (pid qf : String) (projects : List Project)
        (api : Api α ε),
      List.Pairwise ltKey (reqKeys (queryTrace sa pid qf projects api))) ∧
    ExecuteQuery true "x" "f" c4Projects c4Api = ([1, 2, 3, 4, 5], some "boom") ∧
    reqKeys (queryTrace true "x" "f" c4Projects c4Api) = [(0, 0), (0, 1), (1, 0)] :=
  ⟨fun sa pid qf projects api =>
      reqKeys_batchesTrace_pairwise api 0 (issuedBodies sa pid qf projects),
   by decide, by decide⟩

theorem consumeEvents_append {t₁ t₂ : List (Ev α ε)} {n : Nat}
    (h : n ≤ (traceYields t₁).length) :
    consumeEvents n (t₁ ++ t₂) = consumeEvents n t₁ := by
  induction t₁ generalizing n with
  | nil =>
      have : n = 0 := by simpa [traceYields] using h
      simp [this, consumeEvents]
  | cons ev rest ih =>
      cases n with
      | zero => rfl
      | succ n =>
          cases ev with
          | yield e =>
              simp only [traceYields, List.length_cons] at h
              simp only [List.cons_append, consumeEvents]
              exact congrArg (List.cons (Ev.yield e)) (ih (by omega))
          | err e => simp [consumeEvents]
          | req b p body =>
              simp only [traceYields] at h
              simp only [List.cons_append, consumeEvents]
              exact congrArg (List.cons (Ev.req b p body)) (ih h)

theorem batchesTrace_append (api : Api α ε) (i : Nat)
    (bs1 bs2 : List RequestBody) :
    batchesTrace api i (bs1 ++ bs2) =
      if traceErrored (batchesTrace api i bs1) then batchesTrace api i bs1
      else batchesTrace api i bs1 ++ batchesTrace api (i + bs1.length) bs2 := by
  induction bs1 generalizing i with
  | nil => simp [batchesTrace, traceErrored]
  | cons b rest ih =>
      by_cases he : traceErrored (pagesTrace i b 0 (api b))
      · simp [batchesTrace, he, traceErrored_append]
      · simp only [List.cons_append, List.append_eq, batchesTrace, if_neg he,
          traceErrored_append, he, Bool.false_or, List.length_cons]
        rw [ih (i + 1)]
        by_cases hr : traceErrored (batchesTrace api (i + 1) rest)
        · simp [traceErrored_append, he, hr]
        · have harith : i + 1 + rest.length = i + (rest.length + 1) := by omega
          simp [traceErrored_append, he, hr, harith, List.append_assoc]

/-- C3: the generator is lazy and one-pass.  First conjunct: if the consumer
pulls no more entries than the first `bs1` batches can yield, the executed
events are exactly those of running only `bs1` — no later batch is started,
no request of a remaining batch is issued.  Second conjunct: for a two-batch
query whose first page has at least one entry, pulling a single element
executes exactly one request event — batch 0's first page — and one yield. -/
theorem c3_lazy_generator {α ε : Type} (sa : Bool) (pid qf : String)
    (projects : List Project) (api : Api α ε) :
    (∀ bs1 bs2 n, issuedBodies sa pid qf projects = bs1 ++ bs2 →
       n ≤ (traceYields (batchesTrace api 0 bs1)).length →
       consumeEvents n (queryTrace sa pid qf projects api) =
         consumeEvents n (batchesTrace api 0 bs1)) ∧
    (∀ b0 b1 p ps e es, issuedBodies sa pid qf projects = [b0, b1] →
       api b0 = Except.ok p :: ps → pageEntries p = e :: es →
       consumeEvents 1 (queryTrace sa pid qf projects api) =
         [Ev.req 0 0 b0, Ev.yield e]) := by
  constructor
  · intro bs1 bs2 n hsplit hn
    rw [queryTrace, hsplit, batchesTrace_append]
    by_cases he : traceErrored (batchesTrace api 0 bs1)
    · rw [if_pos he]
    · rw [if_neg he]
      exact consumeEvents_append hn
  · intro b0 b1 p ps e es hb hapi hpe
    rw [queryTrace, hb]
    rw [batchesTrace, hapi, pagesTrace, hpe]
    by_cases he : traceErrored
        (Ev.req 0 0 b0 :: ((e :: es).map Ev.yield ++ pagesTrace 0 b0 1 ps)
          : List (Ev α ε))
    · rw [if_pos he]
      simp [consumeEvents]
    · rw [if_neg he]
      simp [consumeEvents]

/-- A backing API for the C3 witness: every batch has one single-entry page. -/
def c3Api : Api Nat String := fun _ => [Except.ok ⟨some [7]⟩]

/-- First request body of the two-batch C3 witness query. -/
def c3Body0 : RequestBody :=
  { resourceNames := (resolveProjectIds true "x" c4Projects).take 50,
    filter := "f", orderBy := "timestamp desc" }

/-- Second request body of the two-batch C3 witness query. -/
def c3Body1 : RequestBody :=
  { resourceNames := (resolveProjectIds true "x" c4Projects).drop 50,
    filter := "f", orderBy := "timestamp desc" }

/-- C3 witness: consuming one element of a concrete two-batch query executes
exactly one request — the first page of batch 0 — and one yield. -/
theorem c3_lazy_generator_witness :
    consumeEvents 1 (queryTrace true "x" "f" c4Projects c3Api) =
      [Ev.req 0 0 c3Body0, Ev.yield 7] :=
  (c3_lazy_generator true "x" "f" c4Projects c3Api).2 c3Body0 c3Body1
    ⟨some [7]⟩ [] 7 [] (by decide) (by rfl) (by rfl)

/-! CLI glue: `QueryLogs` in `src/tools/gcp_cli.py`.  Arguments come from
argparse: an absent flag is `None` and Python truth-tests the strings, so an
argument is "present" exactly when it is a non-empty string. -/

/-- Python truthiness of an optional string argument (`if args.start:`):
`None` and `""` are falsy. -/
def truthy : Option String → Bool
  | none => false
  | some s => !(s == "")

/-- Filter assembly of `QueryLogs` (gcp_cli.py lines 165-182): start bound,
`AND`, end bound, `AND`, caller filter — each piece appended only when the
corresponding argument is truthy, via `qfilter += ...` string concatenation. -/
def buildQfilter (startA endA filterA : Option String) : String :=
  let q0 : String := ""
  let q1 := if truthy startA
    then q0 ++ ("timestamp>=\"" ++ startA.getD "" ++ "\" ") else q0
  let q2 := if truthy startA && truthy endA then q1 ++ "AND " else q1
  let q3 := if truthy endA
    then q2 ++ ("timestamp<=\"" ++ endA.getD "" ++ "\" ") else q2
  if truthy filterA && (truthy startA || truthy endA)
    then q3 ++ "AND " ++ filterA.getD ""
  else if truthy filterA then q3 ++ filterA.getD ""
  else q3

theorem truthy_none : truthy none = false := rfl

theorem strDataEmpty : ("" : String).data = [] := rfl

theorem bq_sef {s e f : String} (hs : truthy (some s) = true)
    (he : truthy (some e) = true) (hf : truthy (some f) = true) :
    buildQfilter (some s) (some e) (some f) =
      "timestamp>=\"" ++ s ++ "\" AND timestamp<=\"" ++ e ++ "\" AND " ++ f := by
  simp [buildQfilter, hs, he, hf, truthy_none]
  apply strExt
  simp only [strData, strDataEmpty, List.nil_append, List.append_assoc]
  all_goals rfl

theorem bq_se {s e : String} (hs : truthy (some s) = true)
    (he : truthy (some e) = true) :
    buildQfilter (some s) (some e) none =
      "timestamp>=\"" ++ s ++ "\" AND timestamp<=\"" ++ e ++ "\" " := by
  simp [buildQfilter, hs, he, truthy_none]
  apply strExt
  simp only [strData, strDataEmpty, List.nil_append, List.append_assoc]
  all_goals rfl

theorem bq_sf {s f : String} (hs : truthy (some s) = true)
    (hf : truthy (some f) = true) :
    buildQfilter (some s) none (some f) =
      "timestamp>=\"" ++ s ++ "\" AND " ++ f := by
  simp [buildQfilter, hs, hf, truthy_none]
  apply strExt
  simp only [strData, strDataEmpty, List.nil_append, List.append_assoc]
  all_goals rfl

theorem bq_ef {e f : String} (he : truthy (some e) = true)
    (hf : truthy (some f) = true) :
    buildQfilter none (some e) (some f) =
      "timestamp<=\"" ++ e ++ "\" AND " ++ f := by
  simp [buildQfilter, he, hf, truthy_none]
  apply strExt
  simp only [strData, strDataEmpty, List.nil_append, List.append_assoc]
  all_goals rfl

theorem bq_s {s : String} (hs : truthy (some s) = true) :
    buildQfilter (some s) none none = "timestamp>=\"" ++ s ++ "\" " := by
  simp [buildQfilter, hs, truthy_none]

theorem bq_e {e : String} (he : truthy (some e) = true) :
    buildQfilter none (some e) none = "timestamp<=\"" ++ e ++ "\" " := by
  simp [buildQfilter, he, truthy_none]

theorem bq_f {f : String} (hf : truthy (some f) = true) :
    buildQfilter none none (some f) = f := by
  simp [buildQfilter, hf, truthy_none]

theorem bq_nothing : buildQfilter none none none = "" := rfl

/-- C7: the assembled filter is the start bound, `AND`, the end bound, `AND`,
the caller filter in that token order, each piece and each `AND` appearing
exactly when the corresponding arguments are present (Python-truthy); on the
claim's concrete inputs the result is exactly the claimed string. -/
theorem c7_filter_assembly (s e f : String) (hs : truthy (some s) = true)
    (he : truthy (some e) = true) (hf : truthy (some f) = true) :
    buildQfilter (some s) (some e) (some f) =
      "timestamp>=\"" ++ s ++ "\" AND timestamp<=\"" ++ e ++ "\" AND " ++ f ∧
    buildQfilter (some s) (some e) none =
      "timestamp>=\"" ++ s ++ "\" AND timestamp<=\"" ++ e ++ "\" " ∧
    buildQfilter (some s) none (some f) =
      "timestamp>=\"" ++ s ++ "\" AND " ++ f ∧
    buildQfilter none (some e) (some f) =
      "timestamp<=\"" ++ e ++ "\" AND " ++ f ∧
    buildQfilter (some s) none none = "timestamp>=\"" ++ s ++ "\" " ∧
    buildQfilter none (some e) none = "timestamp<=\"" ++ e ++ "\" " ∧
    buildQfilter none none (some f) = f ∧
    buildQfilter none none none = "" ∧
    buildQfilter (some "2021-01-01T00:00:00Z") (some "2021-01-02T00:00:00Z")
        (some "severity=ERROR") =
      "timestamp>=\"2021-01-01T00:00:00Z\" AND timestamp<=\"2021-01-02T00:00:00Z\" AND severity=ERROR" :=
  ⟨bq_sef hs he hf, bq_se hs he, bq_sf hs hf, bq_ef he hf, bq_s hs, bq_e he,
   bq_f hf, bq_nothing, by rfl⟩

/-- C7 witness: the claim's concrete start, end and caller filter. -/
theorem c7_filter_assembly_witness :
    buildQfilter (some "2021-01-01T00:00:00Z") (some "2021-01-02T00:00:00Z")
        (some "severity=ERROR") =
      "timestamp>=\"2021-01-01T00:00:00Z\" AND timestamp<=\"2021-01-02T00:00:00Z\" AND severity=ERROR" :=
  (c7_filter_assembly "2021-01-01T00:00:00Z" "2021-01-02T00:00:00Z"
    "severity=ERROR" (by decide) (by decide) (by decide)).2.2.2.2.2.2.2.2

/-! Timestamp validation of `QueryLogs` (gcp_cli.py lines 157-163):
`datetime.strptime(args.start, '%Y-%m-%dT%H:%M:%SZ')`; a `ValueError` makes
the CLI exit (`sys.exit`) before any request is issued.  CPython `_strptime`
matches `%Y` as exactly four digits and each of `%m %d %H %M %S` as one or
two digits constrained by its regex alternation, then constructs a
`datetime`, which additionally requires a positive year, a day valid for the
month, and seconds at most 59. -/

def digitVal (c : Char) : Nat := c.toNat - 48

/-- The `%Y` directive: exactly four digits. -/
def parse4Digits : List Char → Option (Nat × List Char)
  | a :: b :: c :: d :: rest =>
    if a.isDigit && b.isDigit && c.isDigit && d.isDigit then
      some (1000 * digitVal a + 100 * digitVal b + 10 * digitVal c + digitVal d, rest)
    else none
  | _ => none

/-- A literal character of the format string. -/
def expectChar (c : Char) : List Char → Option (List Char)
  | x :: rest => if x = c then some rest else none
  | [] => none

/-- A one-or-two-digit numeric directive: the two-digit alternatives accept
values in `[lo2, hi2]` (with `00` excluded exactly when `lo2 = 1`), the
one-digit alternative accepts `[lo1, hi1]`; candidates come in the regex
alternation order (two digits first) and the caller backtracks across them. -/
def fieldCands (lo2 hi2 lo1 hi1 : Nat) (cs : List Char) : List (Nat × List Char) :=
  (match cs with
   | a :: b :: rest =>
     if a.isDigit && b.isDigit && decide (lo2 ≤ 10 * digitVal a + digitVal b)
         && decide (10 * digitVal a + digitVal b ≤ hi2) then
       [(10 * digitVal a + digitVal b, rest)]
     else []
   | _ => []) ++
  (match cs with
   | a :: rest =>
     if a.isDigit && decide (lo1 ≤ digitVal a) && decide (digitVal a ≤ hi1) then
       [(digitVal a, rest)]
     else []
   | [] => [])

/-- Regex match of `%Y-%m-%dT%H:%M:%SZ` against the whole string, with
backtracking across the per-field alternatives; per CPython `_strptime`,
`%m` is `1[0-2]|0[1-9]|[1-9]` (values 1-12 two-digit, 1-9 one-digit),
`%d` is `3[01]|[12]\d|0[1-9]|[1-9]` (1-31 / 1-9), `%H` is `2[0-3]|[0-1]\d|\d`
(0-23 / 0-9), `%M` is `[0-5]\d|\d` (0-59 / 0-9), `%S` is `6[01]|[0-5]\d|\d`
(0-61 / 0-9). -/
def parseStamp (cs : List Char) : Option (Nat × Nat × Nat × Nat × Nat × Nat) :=
  match parse4Digits cs with
  | none => none
  | some (y, r1) =>
    match expectChar '-' r1 with
    | none => none
    | some r2 =>
      (fieldCands 1 12 1 9 r2).findSome? (fun mc =>
        match expectChar '-' mc.2 with
        | none => none
        | some r4 =>
          (fieldCands 1 31 1 9 r4).findSome? (fun dc =>
            match expectChar 'T' dc.2 with
            | none => none
            | some r6 =>
              (fieldCands 0 23 0 9 r6).findSome? (fun hc =>
                match expectChar ':' hc.2 with
                | none => none
                | some r8 =>
                  (fieldCands 0 59 0 9 r8).findSome? (fun nc =>
                    match expectChar ':' nc.2 with
                    | none => none
                    | some r10 =>
                      (fieldCands 0 61 0 9 r10).findSome? (fun sc =>
                        match expectChar 'Z' sc.2 with
                        | some [] => some (y, mc.1, dc.1, hc.1, nc.1, sc.1)
                        | _ => none)))))

def isLeap (y : Nat) : Bool :=
  y % 4 == 0 && (y % 100 != 0 || y % 400 == 0)

def daysInMonth (y m : Nat) : Nat :=
  if m == 2 then (if isLeap y then 29 else 28)
  else if m == 4 || m == 6 || m == 9 || m == 11 then 30
  else 31

/-- Whether `datetime.strptime(s, '%Y-%m-%dT%H:%M:%SZ')` succeeds: the regex
matches the whole string and the `datetime` constructor accepts the parsed
fields (year at least 1, day valid for month and leap year, seconds at most
59; the other bounds are already enforced by the regex). -/
def strptimeOk (s : String) : Bool :=
  match parseStamp s.toList with
  | none => false
  | some (y, m, d, _h, _n, ss) =>
    decide (1 ≤ y) && decide (1 ≤ d) && decide (d ≤ daysInMonth y m) &&
      decide (ss ≤ 59)

/-- Modelled from the spec: the claim's "strict `YYYY-MM-DDTHH:MM:SSZ`"
shape — four digits, dash, two digits, dash, two digits, `T`, two digits,
colon, two digits, colon, two digits, `Z`, nothing else.  Stated from the
spec's wording for comparison against the code's `strptime` validation. -/
def strictFormat (s : String) : Bool :=
  match s.toList with
  | [y1, y2, y3, y4, a1, m1, m2, a2, d1, d2, t1, h1, h2, b1, n1, n2, b2, s1, s2, z1] =>
    y1.isDigit && y2.isDigit && y3.isDigit && y4.isDigit && a1 == '-' &&
    m1.isDigit && m2.isDigit && a2 == '-' && d1.isDigit && d2.isDigit &&
    t1 == 'T' && h1.isDigit && h2.isDigit && b1 == ':' && n1.isDigit &&
    n2.isDigit && b2 == ':' && s1.isDigit && s2.isDigit && z1 == 'Z'
  | _ => false

/-- The argparse inputs `QueryLogs` reads (gcp_cli.py lines 144-190):
`args.project`, `args.search_all`, `args.start`, `args.end` (here `endA`) and
`args.filter` (here `filterA`). -/
structure CliArgs where
  project : String
  search_all : Bool
  startA : Option String
  endA : Option String
  filterA : Option String

/-- Validation and request assembly of `QueryLogs` (gcp_cli.py lines
157-190): a truthy `start` or `end` bound rejected by `strptime` makes the
CLI `sys.exit` before any request is issued (`Except.error`); otherwise the
filter is assembled and handed to `ExecuteQuery`, whose request bodies are
returned. -/
def QueryLogsRequests (args : CliArgs) (projects : List Project) :
    Except String (List RequestBody) :=
  if truthy args.startA && !(strptimeOk (args.startA.getD "")) then
    Except.error "ValueError"
  else if truthy args.endA && !(strptimeOk (args.endA.getD "")) then
    Except.error "ValueError"
  else
    Except.ok (issuedBodies args.search_all args.project
      (buildQfilter args.startA args.endA args.filterA) projects)

/-- C8 counterexample: `"2021-1-01T00:00:00Z"` is not in the strict
`YYYY-MM-DDTHH:MM:SSZ` shape (one-digit month), yet `strptime` accepts it:
validation passes and the query path hands a non-empty batch list to the
engine instead of failing. -/
theorem c8_strict_format_counterexample :
    strictFormat "2021-1-01T00:00:00Z" = false ∧
    strptimeOk "2021-1-01T00:00:00Z" = true ∧
    QueryLogsRequests ⟨"my-project", false, some "2021-1-01T00:00:00Z", none, none⟩ [] =
      Except.ok [{ resourceNames := ["projects/my-project"],
                   filter := "timestamp>=\"2021-1-01T00:00:00Z\" ",
                   orderBy := "timestamp desc" }] :=
  ⟨by decide, by decide, by rfl⟩

/-- C8 amended: validation is `strptime` with `%Y-%m-%dT%H:%M:%SZ`, not the
strict shape: every truthy bound `strptime` rejects (such as `"2021-13-40"`)
fails validation before any request exists, but some strings outside the
strict shape (one-digit fields) are accepted. -/
theorem c8_amended_validation (args : CliArgs) (projects : List Project)
    (h : (truthy args.startA = true ∧ strptimeOk (args.startA.getD "") = false) ∨
         (truthy args.endA = true ∧ strptimeOk (args.endA.getD "") = false)) :
    QueryLogsRequests args projects = Except.error "ValueError" := by
  rcases h with ⟨ht, hv⟩ | ⟨ht, hv⟩
  · simp [QueryLogsRequests, ht, hv]
  · by_cases hstart : truthy args.startA && !(strptimeOk (args.startA.getD ""))
    · simp [QueryLogsRequests, hstart]
    · simp [QueryLogsRequests, hstart, ht, hv]

/-- C8 amended witness: the claim's own malformed example `"2021-13-40"` is
rejected and the query path produces no request. -/
theorem c8_amended_validation_witness :
    strptimeOk "2021-13-40" = false ∧
    QueryLogsRequests ⟨"p", false, some "2021-13-40", none, none⟩ [] =
      Except.error "ValueError" :=
  ⟨by decide,
   c8_amended_validation ⟨"p", false, some "2021-13-40", none, none⟩ []
     (Or.inl ⟨by decide, by decide⟩)⟩

/-- A Python value at the CLI persistence boundary: only whether it is a
string matters to the `{0:s}` format spec. -/
inductive PyVal where
  | str : String → PyVal
  | float : PyVal

/-- Python format with the `s` format code: valid only for `str` values;
`datetime.utcnow().timestamp()` is a `float`, for which it raises
`ValueError` (message abridged here). -/
def formatS : PyVal → Except String String
  | PyVal.str s => Except.ok s
  | PyVal.float =>
      Except.error "ValueError: Unknown format code s for object of type float"

/-- Persistence of `QueryLogs` (gcp_cli.py lines 189-194):
`filename = 'gcp_log_query-{0:s}.json'.format(datetime.utcnow().timestamp())`
raises before the loop because the timestamp is a `float`; and even with a
well-formed filename, the loop body `json.dump(line, output_file)` reads the
name `line`, which is unbound inside `QueryLogs` (the loop variable is
`result`), so the first entry would raise `NameError` and no streamed entry
is ever appended.  The success value is the filename and the records
appended. -/
def QueryLogsPersist (entries : List α) : Except String (String × List α) :=
  match formatS PyVal.float with
  | Except.error e => Except.error e
  | Except.ok ts =>
    match entries with
    | [] => Except.ok ("gcp_log_query-" ++ ts ++ ".json", [])
    | _ :: _ => Except.error "NameError: name line is not defined"

/-- C10: the persistence step appends no record for any entry list — it
raises at the filename format before the loop (and its loop body dumps the
unbound name `line`, not the loop variable `result`), so the claimed
one-record-per-entry behaviour does not hold of the code. -/
theorem c10_persistence_defect {α : Type} (entries : List α) :
    QueryLogsPersist entries =
      Except.error "ValueError: Unknown format code s for object of type float" := rfl

end LCF
